import Mathlib

/-!
Verification development for the aping probing daemon (src/aping/main.py).

The Python source is shallowly embedded: pure helpers become Lean functions,
Python dicts become insertion-ordered association lists with dict update
semantics, the fping report regex becomes an explicit backtracking matcher
with Python's leftmost-greedy semantics, and the asyncio part of the program
(Prober.run, the stop callback, monitor_tasks' reload loop) becomes a
deterministic executor over an explicit scheduler script, so that any
cooperative interleaving of the event loop is one script.
-/

/-! ## Python dict model

A Python dict is modelled as an insertion-ordered association list.
`pyUpsert` is one key assignment (overwrite in place or append),
`pyUpdate` is `dict.update`, `pyGet` is `dict.get` (on lists built by
`pyUpsert`/`pyUpdate` keys are unique, so first-match lookup is dict lookup),
`pyGetLast` reads the last binding of a key in a raw key/value list, which is
the binding a Python dict literal or update loop would retain. -/

def pyUpsert {κ α : Type} [DecidableEq κ] (d : List (κ × α)) (k : κ) (v : α) :
    List (κ × α) :=
  match d with
  | [] => [(k, v)]
  | (k0, v0) :: rest =>
    if k0 = k then (k0, v) :: rest else (k0, v0) :: pyUpsert rest k v

def pyUpdate {κ α : Type} [DecidableEq κ] (d src : List (κ × α)) : List (κ × α) :=
  src.foldl (fun acc kv => pyUpsert acc kv.1 kv.2) d

def pyGet {κ α : Type} [DecidableEq κ] (d : List (κ × α)) (k : κ) : Option α :=
  match d with
  | [] => none
  | (k0, v0) :: rest => if k0 = k then some v0 else pyGet rest k

def pyGetLast {κ α : Type} [DecidableEq κ] (d : List (κ × α)) (k : κ) : Option α :=
  match d with
  | [] => none
  | kv :: rest =>
    match pyGetLast rest k with
    | some v => some v
    | none => if kv.1 = k then some kv.2 else none

/-! ## Escaping and the line-protocol field encoder

Source: `escapeseq = str.maketrans({',': '\,', ' ': '\ ', '=': '\=', '\n': ''})`
and `Point._encode`, `Point._encode_field` in src/aping/main.py. -/

/-- The `escapeseq` translation table: one character maps to its escaped
form (backslash-prefixed for comma, space and equals sign; a newline is
dropped; everything else is kept). -/
def escapeseq (c : Char) : List Char :=
  if c = ',' then ['\\', ',']
  else if c = ' ' then ['\\', ' ']
  else if c = '=' then ['\\', '=']
  else if c = '\n' then []
  else [c]

/-- `Point._encode` on a value that is already a string:
`str(string).translate(escapeseq)`. -/
def Point_encode (s : String) : String := ⟨s.data.flatMap escapeseq⟩

/-- Reverse of the escape rules (spec-side definition, §8 round-trip: a
backslash followed by comma, space or equals sign denotes that character;
anything else stands for itself). -/
def unescChars : List Char → List Char
  | [] => []
  | [c] => [c]
  | c :: d :: rest =>
    if c = '\\' then
      if d = ',' ∨ d = ' ' ∨ d = '=' then d :: unescChars rest
      else c :: unescChars (d :: rest)
    else c :: unescChars (d :: rest)

def unescape (s : String) : String := ⟨unescChars s.data⟩

/-! ## Field values and `Point._encode_field`

Python field values are a closed tagged type here. `isinstance(value, int)`
is true for Python booleans as well, because `bool` is a subclass of `int`;
the embedding reproduces that.

Every float this program constructs is an exact decimal (parsed from the
digit strings of a report line, or the literal 0.0), so floats are modelled
as normalized decimals `mant × 10 ^ (-scale)` with trailing zeros stripped
from the mantissa: two `Dec` values are equal exactly when the decimals
they denote are equal, matching Python float equality on these values. -/

structure Dec where
  mant : ℤ
  scale : Nat
deriving DecidableEq, Repr

/-- Normalize a decimal `m × 10 ^ (-s)` by stripping factors of ten. -/
def Dec.norm (m : ℤ) : Nat → Dec
  | 0 => ⟨m, 0⟩
  | s + 1 => if m % 10 = 0 then Dec.norm (m / 10) s else ⟨m, s + 1⟩

/-- The rational a `Dec` denotes. -/
def Dec.toRat (d : Dec) : ℚ := (d.mant : ℚ) / (10 : ℚ) ^ d.scale

inductive Value where
  | int (n : ℤ)
  | float (d : Dec)
  | bool (b : Bool)
  | str (s : String)
deriving DecidableEq, Repr

/-- `isinstance(value, int)` — true for ints and for bools (subclass). -/
def isinstance_int : Value → Bool
  | .int _ => true
  | .bool _ => true
  | _ => false

/-- `isinstance(value, (bool, float))`. -/
def isinstance_bool_or_float : Value → Bool
  | .bool _ => true
  | .float _ => true
  | _ => false

/-- `str()` of a CPython float holding an exact decimal: the shortest
decimal spelling, always with a decimal point (`str(1.0) = "1.0"`,
`str(2.5) = "2.5"`, `str(0.05) = "0.05"`). -/
def pyFloatStr (d : Dec) : String :=
  let sign := if d.mant < 0 then "-" else ""
  let m := d.mant.natAbs
  if d.scale = 0 then sign ++ toString m ++ ".0"
  else
    let ip := m / 10 ^ d.scale
    let fp := m % 10 ^ d.scale
    let fs := toString fp
    sign ++ toString ip ++ "." ++
      String.mk (List.replicate (d.scale - fs.length) '0') ++ fs

/-- `str(value)` for a field value. -/
def pyStr : Value → String
  | .int n => toString n
  | .float d => pyFloatStr d
  | .bool b => if b then "True" else "False"
  | .str s => s

/-- `Point._encode_field`: branch order as in the source — the
`isinstance(value, int)` test comes first, so a boolean value takes the
integer branch (Python `bool` is a subclass of `int`) and the
`isinstance(value, (bool, float))` branch is unreachable for booleans. -/
def Point_encode_field (field : String) (value : Value) : String :=
  let f := Point_encode field
  let v := Point_encode (pyStr value)
  if isinstance_int value then f ++ "=" ++ v ++ "i"
  else if isinstance_bool_or_float value then f ++ "=" ++ v
  else f ++ "=\"" ++ v ++ "\""

/-! ## Point and `encode_line` (source keeps the `mesurement` spelling) -/

structure Point where
  mesurement : String
  fields : List (String × Value)
  tags : List (String × String)
  timestamp : Option Int
deriving DecidableEq, Repr

/-- `Point.encode_line`. `if self.timestamp:` and `if self.tags:` are Python
truthiness tests: a timestamp of 0 and an empty tag dict are falsy. -/
def Point.encode_line (p : Point) : String :=
  let timestamp :=
    match p.timestamp with
    | some ts => if ts = 0 then "" else " " ++ toString ts
    | none => ""
  let tags :=
    if p.tags = [] then ""
    else String.join (p.tags.map
      (fun kv => "," ++ Point_encode kv.1 ++ "=" ++ Point_encode kv.2))
  let fields := String.intercalate ","
    (p.fields.map (fun kv => Point_encode_field kv.1 kv.2))
  Point_encode p.mesurement ++ tags ++ " " ++ fields ++ timestamp ++ "\n"

/-! ## Dest -/

structure Dest where
  name : String
  dest : String
  tagsAll : List (String × String)
deriving DecidableEq, Repr

/-- `Dest.__init__`: `_tags = {"name": name, "dest": dest}` then
`_tags.update(tags)`, so a configured tag overwrites the two built-ins. -/
def Dest.make (name dest : String) (tags : List (String × String)) : Dest :=
  ⟨name, dest, pyUpdate [("name", name), ("dest", dest)] tags⟩

/-- `Dest.tags(probername)`: a copy of `_tags` updated with
`{"probername": probername}` — applied last, so it wins. -/
def Dest.tagsFor (d : Dest) (probername : String) : List (String × String) :=
  pyUpdate d.tagsAll [("probername", probername)]

/-! ## Configuration, `chunker` and `get_fping_probers` -/

inductive FpingV where
  | one (s : String)
  | many (l : List String)
deriving DecidableEq, Repr

structure ProbeParams where
  fping : FpingV
  tags : List (String × String)
deriving DecidableEq, Repr

structure Conf where
  prober_name : String
  probes : List (String × ProbeParams)
deriving DecidableEq, Repr

/-- The `isinstance(params.get("fping", []), str)` dispatch: a single
address becomes a one-element list. (A probe entry without the `fping` key
raises KeyError at startup in the source, so configurations are modelled
with the key present.) -/
def fpingList : FpingV → List String
  | .one s => [s]
  | .many l => l

/-- `chunker(l, pool)`: `pool` empty buckets, then each element appended to
bucket `i % pool` in order. -/
def chunker {α : Type} (l : List α) (pool : Nat) : List (List α) :=
  l.enum.foldl
    (fun lists ie => lists.set (ie.1 % pool) ((lists.getD (ie.1 % pool) []) ++ [ie.2]))
    (List.replicate pool ([] : List α))

/-- The flattened ordered Destination list built in `get_fping_probers`. -/
def apingDests (conf : Conf) : List Dest :=
  conf.probes.flatMap (fun np =>
    (fpingList np.2.fping).map (fun d => Dest.make np.1 d np.2.tags))

structure ProberData where
  probername : String
  destsList : List Dest
deriving DecidableEq, Repr

/-- `self.dests = {d.dest: d for d in dests}` — dict built in list order,
a duplicate address keeps the last Dest. -/
def ProberData.destsDict (pr : ProberData) : List (String × Dest) :=
  pyUpdate [] (pr.destsList.map (fun d => (d.dest, d)))

/-- `get_fping_probers`: one Prober per `chunker` bucket — including empty
buckets (the comprehension has no emptiness filter). -/
def get_fping_probers (conf : Conf) (worker_count : Nat) : List ProberData :=
  (chunker (apingDests conf) worker_count).map
    (fun pool_dests => ⟨conf.prober_name, pool_dests⟩)

/-! ## The fping report regex (`Prober.fping_re`)

The source pattern
`(?P<host>[^ ]+)\s*:.+=\s*(?P<sent>\d+)/(?P<recv>\d+)/(?P<loss>\d+)(.+=\s*(?P<min>[0-9.]+)/(?P<avg>[0-9.]+)/(?P<max>[0-9.]+))?`
is embedded as an explicit regex term plus a backtracking matcher in
continuation-passing style that reproduces Python's leftmost-greedy
semantics: every quantifier is over a single-character class, tried at its
longest run first and backtracked one character at a time; `re.match`
anchors at the start only. -/

abbrev Caps := List (Nat × String)

inductive RE where
  | eps
  | chr (c : Char)
  | plusCls (p : Char → Bool)
  | starCls (p : Char → Bool)
  | cat (r1 r2 : RE)
  | grp (idx : Nat) (r : RE)
  | opt (r : RE)

/-- Sequencing of a pattern list. -/
def reSeq (rs : List RE) : RE := rs.foldr RE.cat RE.eps

/-- Greedy run with backtracking: try consuming `n` class characters, then
`n - 1`, ... down to `lo` (1 for `+`, 0 for `*`). -/
def tryLens (k : List Char → Option Caps) (s : List Char) (lo : Nat) :
    Nat → Option Caps
  | 0 => if lo = 0 then k s else none
  | n + 1 =>
    if n + 1 < lo then none
    else
      match k (s.drop (n + 1)) with
      | some r => some r
      | none => tryLens k s lo n

def REmat : RE → List Char → Caps → (List Char → Caps → Option Caps) → Option Caps
  | .eps, s, caps, k => k s caps
  | .chr c, s, caps, k =>
    match s with
    | [] => none
    | a :: rest => if a = c then k rest caps else none
  | .plusCls p, s, caps, k =>
    tryLens (fun rest => k rest caps) s 1 (s.takeWhile p).length
  | .starCls p, s, caps, k =>
    tryLens (fun rest => k rest caps) s 0 (s.takeWhile p).length
  | .cat r1 r2, s, caps, k => REmat r1 s caps (fun s2 c2 => REmat r2 s2 c2 k)
  | .grp i r, s, caps, k =>
    REmat r s caps (fun s2 c2 =>
      k s2 (pyUpsert c2 i (String.mk (s.take (s.length - s2.length)))))
  | .opt r, s, caps, k =>
    match REmat r s caps k with
    | some res => some res
    | none => k s caps

/-- Python's `\s` over the characters this program meets. -/
def pySpace (c : Char) : Bool :=
  c == ' ' || c == '\t' || c == '\n' || c == '\r' || c == '\x0b' || c == '\x0c'

def floatChar (c : Char) : Bool := c.isDigit || c == '.'

/-- `Prober.fping_re`, groups numbered as compiled from the source pattern:
1 host, 2 sent, 3 recv, 4 loss, 5 the optional latency clause, 6 min,
7 avg, 8 max. `.` is any character but a newline, `[^ ]` any but a space. -/
def fping_re : RE :=
  reSeq
    [ .grp 1 (.plusCls (fun c => !(c == ' '))),
      .starCls pySpace,
      .chr ':',
      .plusCls (fun c => !(c == '\n')),
      .chr '=',
      .starCls pySpace,
      .grp 2 (.plusCls Char.isDigit),
      .chr '/',
      .grp 3 (.plusCls Char.isDigit),
      .chr '/',
      .grp 4 (.plusCls Char.isDigit),
      .opt (.grp 5 (reSeq
        [ .plusCls (fun c => !(c == '\n')),
          .chr '=',
          .starCls pySpace,
          .grp 6 (.plusCls floatChar),
          .chr '/',
          .grp 7 (.plusCls floatChar),
          .chr '/',
          .grp 8 (.plusCls floatChar) ])) ]

/-- `fping_re.match(s)`: anchored at the start, free at the end. -/
def fpingCaps (s : List Char) : Option Caps :=
  REmat fping_re s [] (fun _ caps => some caps)

structure FpingGroups where
  host : String
  sent : String
  recv : String
  loss : String
  minv : Option String
  avgv : Option String
  maxv : Option String
deriving DecidableEq, Repr

def fpingMatch (s : String) : Option FpingGroups :=
  match fpingCaps s.data with
  | none => none
  | some caps =>
    match pyGet caps 1, pyGet caps 2, pyGet caps 3, pyGet caps 4 with
    | some h, some a, some b, some c =>
      some ⟨h, a, b, c, pyGet caps 6, pyGet caps 7, pyGet caps 8⟩
    | _, _, _, _ => none

/-! ## Line parsing (`Prober.readline`) -/

/-- `str.strip()`. -/
def pyStrip (s : String) : String :=
  ⟨((s.data.dropWhile pySpace).reverse.dropWhile pySpace).reverse⟩

def digitsToNat (l : List Char) : Option Nat :=
  l.foldl
    (fun acc c =>
      match acc with
      | none => none
      | some n => if c.isDigit then some (n * 10 + (c.toNat - 48)) else none)
    (some 0)

/-- `int(s)` on the digit strings the regex produces (`\d+`); an empty or
non-digit string raises. -/
def pyInt (s : String) : Option ℤ :=
  if s.data = [] then none else (digitsToNat s.data).map Int.ofNat

/-- Split a character list at every dot. -/
def splitDots (l : List Char) : List (List Char) :=
  match l with
  | [] => [[]]
  | c :: rest =>
    let r := splitDots rest
    if c = '.' then [] :: r
    else (c :: r.headD []) :: r.tail

/-- `float(s)` on strings drawn from `[0-9.]+`: digits with at most one
decimal point and at least one digit; anything else raises ValueError. -/
def pyFloat (s : String) : Option Dec :=
  match splitDots s.data with
  | [a] => if a = [] then none else (digitsToNat a).map (fun n => Dec.norm n 0)
  | [a, b] =>
    if a = [] ∧ b = [] then none
    else
      match (if a = [] then some 0 else digitsToNat a),
            (if b = [] then some 0 else digitsToNat b) with
      | some na, some nb =>
        some (Dec.norm (Int.ofNat (na * 10 ^ b.length + nb)) b.length)
      | _, _ => none
  | _ => none

/-- `float(m.group(g)) if m.group(g) else 0.0` — an absent or empty group
is falsy and yields 0.0. -/
def optFloat : Option String → Option Dec
  | none => some ⟨0, 0⟩
  | some s => if s = "" then some ⟨0, 0⟩ else pyFloat s

inductive ReadOutcome where
  | noMatch
  | unknownHost (h : String)
  | emit (p : Point)
  | valueError
deriving DecidableEq, Repr

/-- `Prober.readline` on one decoded report line: strip, match `fping_re`;
no match → silently discarded; host not in the worker's address table →
printed and dropped; otherwise build the `fping` Point with integer
`sent`/`recv`/`loss` and float `min`/`avg`/`max` (0.0 when the latency
clause is absent), tagged via `dest.tags(self.probername)`, and dispatch
it to the sink. `valueError` marks an `int()`/`float()` exception. -/
def ProberData.readline (pr : ProberData) (raw : String) : ReadOutcome :=
  match fpingMatch (pyStrip raw) with
  | none => .noMatch
  | some g =>
    match pyGet pr.destsDict g.host with
    | none => .unknownHost g.host
    | some d =>
      match pyInt g.sent, pyInt g.recv, pyInt g.loss,
            optFloat g.minv, optFloat g.avgv, optFloat g.maxv with
      | some ns, some nr, some nl, some qmin, some qavg, some qmax =>
        .emit ⟨"fping",
          [("sent", .int ns), ("recv", .int nr), ("loss", .int nl),
           ("min", .float qmin), ("avg", .float qavg), ("max", .float qmax)],
          d.tagsFor pr.probername, none⟩
      | _, _, _, _, _, _ => .valueError

/-! ## `InfluxDBClient.write` -/

inductive HttpResult where
  | resp (status : Nat) (body : String)
  | netError (msg : String)
deriving DecidableEq, Repr

structure WriteEffect where
  requests : Nat
  logged : List String
deriving DecidableEq, Repr

inductive WriteOutcome where
  | returned (e : WriteEffect) (status : Nat)
  | raised (e : WriteEffect) (msg : String)
deriving DecidableEq, Repr

/-- `InfluxDBClient.write(point)`: encode the point, POST it once to
`<url>/write?db=<database>`, log an error line when the status is not 204,
and return the response. The POST's outcome is the parameter `r`; the
source wraps the request in no try/except, so a raised client or network
error propagates out of the call, and nothing in the method retries. -/
def InfluxDBClient.write (point : Point) (r : HttpResult) : WriteOutcome :=
  let _data := point.encode_line
  match r with
  | .netError m => .raised ⟨1, []⟩ m
  | .resp st body =>
    if st ≠ 204 then .returned ⟨1, ["influxdb write failed: " ++ body]⟩ st
    else .returned ⟨1, []⟩ st

def WriteOutcome.returnsNormally : WriteOutcome → Bool
  | .returned _ _ => true
  | .raised _ _ => false

/-! ## The asyncio part: `Prober.run`, the `stopped` callback, `monitor_tasks`

The event loop is single-threaded and cooperative: a coroutine runs
synchronously between awaits, and the scheduler picks what runs next. The
embedding makes that explicit: system state below, and a deterministic
executor over a scheduler script, where one script step resumes one
coroutine (or delivers one environment event) and runs it to its next
suspension point. Every interleaving the real loop can produce is some
script; steps that are not runnable are no-ops. -/

inductive ProcSt where
  | running
  | signalled
  | exited
deriving DecidableEq, Repr

inductive WPhase where
  | toSpawn
  | waiting
  | toRespawn
  | finalWait
  | done
  | cancelled
deriving DecidableEq, Repr

/-- One `Prober.run` task. `curProc` is the local variable `process`;
`cbProc` is the process captured by `functools.partial(self.stopped,
process)` when the callback was attached to `stop_future` at `run()` start —
it is never rebound on respawn. `phase` is the await the coroutine is
suspended at: `toSpawn`/`toRespawn` at `await self.get_process()`, `waiting`
at `await asyncio.wait([...], FIRST_COMPLETED)`, `finalWait` at the final
`await process.wait()`. -/
structure WorkerSt where
  dests : List String
  epoch : Nat
  phase : WPhase
  curProc : Option Nat
  cbProc : Option Nat
  stopSet : Bool
  cbRan : Bool
  cancelReq : Bool
  lineReady : Bool
deriving DecidableEq, Repr

structure Sys where
  procs : List ProcSt
  workers : List WorkerSt
  current : List Nat
  eventSet : Bool
  fileConf : Conf
  epoch : Nat
  workerCount : Nat
deriving DecidableEq, Repr

/-- Observable actions: `spawn w p` — worker `w` spawned process `p` (began
probing); `termProc p` — `process.terminate()` on `p`; `exitp p` — process
`p` exited; `ret w` — `run()` returned; `stopSig`/`cancelSig` —
`p.stop()` / `task.cancel()` issued; `taskCancelled` — CancelledError
delivered; `created w` — `loop.create_task(prober.run())`; `rebuilt c` —
the reload body rebuilt the pool from configuration `c`; `gotLine w` — a
report line was consumed. -/
inductive Act where
  | spawn (w p : Nat)
  | termProc (p : Nat)
  | exitp (p : Nat)
  | ret (w : Nat)
  | stopSig (w : Nat)
  | cancelSig (w : Nat)
  | taskCancelled (w : Nat)
  | created (w : Nat)
  | rebuilt (c : Conf)
  | gotLine (w : Nat)
deriving DecidableEq, Repr

def isExited (s : Sys) : Option Nat → Bool
  | none => false
  | some q =>
    match s.procs[q]? with
    | some .exited => true
    | _ => false

/-- One resumption of worker `wi`'s `Prober.run` coroutine at its current
suspension point, run synchronously to the next one. Cancellation pending
at a suspension point raises CancelledError there; the source has no
try/finally, so nothing is terminated or awaited on that path. After
`asyncio.wait` returns, the source respawns iff the process has exited and
stop is not set, then re-checks the loop condition; after the loop it
awaits the current process's exit and returns. -/
def wstep (s : Sys) (wi : Nat) : Sys × List Act :=
  match s.workers[wi]? with
  | none => (s, [])
  | some w =>
    match w.phase with
    | .done => (s, [])
    | .cancelled => (s, [])
    | .toSpawn =>
      if w.cancelReq then
        ({s with workers := s.workers.set wi {w with phase := .cancelled}},
         [.taskCancelled wi])
      else
        let p := s.procs.length
        let w2 := { w with
          curProc := some p, cbProc := some p,
          phase := if w.stopSet then WPhase.finalWait else WPhase.waiting }
        ({s with procs := s.procs ++ [.running], workers := s.workers.set wi w2},
         [.spawn wi p])
    | .toRespawn =>
      if w.cancelReq then
        ({s with workers := s.workers.set wi {w with phase := .cancelled}},
         [.taskCancelled wi])
      else
        let p := s.procs.length
        let w2 := { w with
          curProc := some p,
          phase := if w.stopSet then WPhase.finalWait else WPhase.waiting }
        ({s with procs := s.procs ++ [.running], workers := s.workers.set wi w2},
         [.spawn wi p])
    | .waiting =>
      if w.cancelReq then
        ({s with workers := s.workers.set wi {w with phase := .cancelled}},
         [.taskCancelled wi])
      else if w.lineReady || w.stopSet || isExited s w.curProc then
        let w2 := { w with
          lineReady := false,
          phase :=
            if isExited s w.curProc && !w.stopSet then WPhase.toRespawn
            else if w.stopSet then WPhase.finalWait
            else WPhase.waiting }
        ({s with workers := s.workers.set wi w2},
         if w.lineReady then [.gotLine wi] else [])
      else (s, [])
    | .finalWait =>
      if w.cancelReq then
        ({s with workers := s.workers.set wi {w with phase := .cancelled}},
         [.taskCancelled wi])
      else if isExited s w.curProc then
        ({s with workers := s.workers.set wi {w with phase := .done}}, [.ret wi])
      else (s, [])

/-- The `stopped` done-callback of `stop_future`, runnable once after the
stop event is set: `if process.returncode is None: process.terminate()` —
on the process bound at `run()` start (`cbProc`), not the current one. -/
def cbstep (s : Sys) (wi : Nat) : Sys × List Act :=
  match s.workers[wi]? with
  | none => (s, [])
  | some w =>
    match w.cbProc with
    | none => (s, [])
    | some p =>
      if w.stopSet && !w.cbRan then
        let s2 := {s with workers := s.workers.set wi {w with cbRan := true}}
        match s.procs[p]? with
        | some .running =>
          ({s2 with procs := s2.procs.set p .signalled}, [.termProc p])
        | some .signalled =>
          ({s2 with procs := s2.procs.set p .signalled}, [.termProc p])
        | _ => (s2, [])
      else (s, [])

def mkWorker (dests : List String) (epoch : Nat) : WorkerSt :=
  ⟨dests, epoch, .toSpawn, none, none, false, false, false, false⟩

def listModify {α : Type} (l : List α) (i : Nat) (f : α → α) : List α :=
  match l[i]? with
  | some a => l.set i (f a)
  | none => l

/-- `for p in probers: p.stop()` — sets every current worker's stop event. -/
def stopAll (s : Sys) : Sys :=
  { s with
    workers := s.current.foldl
      (fun ws wi => listModify ws wi (fun w => {w with stopSet := true}))
      s.workers }

/-- `for task in tasks: task.cancel()`. -/
def cancelAll (s : Sys) : Sys :=
  { s with
    workers := s.current.foldl
      (fun ws wi => listModify ws wi (fun w => {w with cancelReq := true}))
      s.workers }

/-- The body of `monitor_tasks`' reload loop — one atomic scheduler turn,
since it contains no await: when the reload event is set, re-read the
configuration, clear the event, call `p.stop()` on every current prober,
`task.cancel()` on every current task, then build the new epoch's probers
and create their tasks. Nothing in this body terminates a process itself or
awaits any old task's or process's exit. -/
def monitorStep (s : Sys) : Sys × List Act :=
  if s.eventSet then
    let conf := s.fileConf
    let s1 := cancelAll (stopAll {s with eventSet := false})
    let probers := get_fping_probers conf s.workerCount
    let base := s1.workers.length
    let newWs := probers.map
      (fun pr => mkWorker (pr.destsDict.map (fun kv => kv.1)) (s.epoch + 1))
    ({ s1 with
       workers := s1.workers ++ newWs,
       current := (List.range newWs.length).map (fun i => i + base),
       epoch := s.epoch + 1 },
     s.current.map Act.stopSig ++ s.current.map Act.cancelSig
       ++ [Act.rebuilt conf]
       ++ (List.range newWs.length).map (fun i => Act.created (base + i)))
  else (s, [])

/-- Scheduler script steps: resume a worker coroutine, run a pending stop
callback, or deliver an environment event — a process exit, a report line,
a `stop()` call, a SIGHUP (its loop callback sets the reload event), a
change of the configuration file's content, or a turn of `monitor_tasks`. -/
inductive SStep where
  | worker (wi : Nat)
  | cb (wi : Nat)
  | procExit (p : Nat)
  | lineArrive (wi : Nat)
  | stopReq (wi : Nat)
  | sighup
  | configSet (c : Conf)
  | monitor
deriving DecidableEq, Repr

def sysStep (s : Sys) : SStep → Sys × List Act
  | .worker wi => wstep s wi
  | .cb wi => cbstep s wi
  | .procExit p =>
    match s.procs[p]? with
    | some .running => ({s with procs := s.procs.set p .exited}, [.exitp p])
    | some .signalled => ({s with procs := s.procs.set p .exited}, [.exitp p])
    | _ => (s, [])
  | .lineArrive wi =>
    ({s with workers := listModify s.workers wi (fun w => {w with lineReady := true})}, [])
  | .stopReq wi =>
    ({s with workers := listModify s.workers wi (fun w => {w with stopSet := true})},
     [.stopSig wi])
  | .sighup => ({s with eventSet := true}, [])
  | .configSet c => ({s with fileConf := c}, [])
  | .monitor => monitorStep s

def sysRun (s : Sys) : List SStep → Sys × List Act
  | [] => (s, [])
  | st :: rest =>
    let r1 := sysStep s st
    let r2 := sysRun r1.1 rest
    (r2.1, r1.2 ++ r2.2)

/-- `monitor_tasks` startup: build the epoch-0 probers from the configuration
and create their tasks. -/
def initSys (conf : Conf) (wc : Nat) : Sys :=
  let probers := get_fping_probers conf wc
  { procs := [],
    workers := probers.map (fun pr => mkWorker (pr.destsDict.map (fun kv => kv.1)) 0),
    current := List.range probers.length,
    eventSet := false,
    fileConf := conf,
    epoch := 0,
    workerCount := wc }

/-- A one-destination demo configuration. -/
def confDemo : Conf := ⟨"p", [("g", ⟨.one "h", []⟩)]⟩

def wDefault : WorkerSt := mkWorker [] 0

/-! ## `Prober.get_process` command line -/

/-- The fixed `base_cmd` of `Prober.get_process`, in source order. -/
def fping_base_cmd : List String :=
  ["fping", "--unreach", "--backoff", "1", "--elapsed", "--retry", "0",
   "--tos", "0", "--squiet", "10", "--period", "1000", "--random",
   "--timeout", "1000", "--loop"]

/-- The spawned command: `base_cmd + [d.dest for d in self.dests.values()]`. -/
def fping_cmd (pr : ProberData) : List String :=
  fping_base_cmd ++ pr.destsDict.map (fun kv => kv.2.dest)

/-- The §4.1 flag set as the spec words it (spec-side list, for comparison):
report unreachable targets, backoff factor 1, elapsed time, 0 retries,
randomized probe order, quiet after 10 silent responses, 1000 ms period,
1000 ms timeout, loop mode. -/
def spec41_flags : List String :=
  ["--unreach", "--backoff", "1", "--elapsed", "--retry", "0", "--random",
   "--squiet", "10", "--period", "1000", "--timeout", "1000", "--loop"]

/-! ## Trace helpers -/

/-- The rebuild actions of a trace. -/
def rebuilds (tr : List Act) : List Act :=
  tr.filter (fun a => match a with | .rebuilt _ => true | _ => false)

/-- No stop callback in `s` can ever terminate process `t`: every worker's
callback has already run or is bound to a different process, and `t` is an
already-allocated pid, so any callback attached later binds a fresh one. -/
def cbSafe (t : Nat) (s : Sys) : Prop :=
  t < s.procs.length ∧ ∀ w ∈ s.workers, w.cbRan = true ∨ w.cbProc ≠ some t

instance (t : Nat) (s : Sys) : Decidable (cbSafe t s) := by
  unfold cbSafe
  infer_instance

/-- The C2 scenario: the worker spawns process 0, the process exits, the
worker respawns process 1, `stop()` is called, the `stopped` callback runs
(it inspects process 0, finds it already exited, terminates nothing), the
worker wakes and leaves its loop into `await process.wait()` on process 1. -/
def stopAfterRespawnScript : List SStep :=
  [.worker 0, .procExit 0, .worker 0, .worker 0, .stopReq 0, .cb 0, .worker 0]

/-- The C1 scenario: worker 0 of epoch 0 spawns process 0; SIGHUP; the
reload body stops and cancels worker 0 and creates worker 1 of epoch 1 for
the same destination; worker 0's task observes the cancellation and dies
without cleanup; worker 1 starts and spawns process 1 — while process 0 is
still alive. -/
def reloadOverlapScript : List SStep :=
  [.worker 0, .sighup, .monitor, .worker 0, .worker 1]

def sysDemoReload : Sys := {initSys confDemo 1 with eventSet := true}

def confDemo2 : Conf := ⟨"q", [("g2", ⟨.one "h2", []⟩)]⟩

/-! ## Theorems -/

theorem pyGet_pyUpsert_self {κ α : Type} [DecidableEq κ]
    (d : List (κ × α)) (k : κ) (v : α) : pyGet (pyUpsert d k v) k = some v := by
  induction d with
  | nil => simp [pyUpsert, pyGet]
  | cons kv rest ih =>
    by_cases h : kv.1 = k
    · simp [pyUpsert, pyGet, h]
    · simp [pyUpsert, pyGet, h, ih]

theorem pyGet_pyUpsert_ne {κ α : Type} [DecidableEq κ]
    (d : List (κ × α)) (k k2 : κ) (v : α) (h : k2 ≠ k) :
    pyGet (pyUpsert d k v) k2 = pyGet d k2 := by
  induction d with
  | nil => simp [pyUpsert, pyGet, Ne.symm h]
  | cons kv rest ih =>
    obtain ⟨k0, v0⟩ := kv
    by_cases h0 : k0 = k
    · subst h0
      have hne : k0 ≠ k2 := Ne.symm h
      simp [pyUpsert, pyGet, hne]
    · by_cases h2 : k0 = k2 <;> simp [pyUpsert, pyGet, h0, h2, ih, h]

theorem pyGet_pyUpsert {κ α : Type} [DecidableEq κ]
    (d : List (κ × α)) (k0 k : κ) (v : α) :
    pyGet (pyUpsert d k0 v) k = if k0 = k then some v else pyGet d k := by
  by_cases h : k0 = k
  · subst h
    simp [pyGet_pyUpsert_self]
  · simp [h, pyGet_pyUpsert_ne d k0 k v (fun e => h e.symm)]

theorem pyGet_pyUpdate {κ α : Type} [DecidableEq κ]
    (d src : List (κ × α)) (k : κ) :
    pyGet (pyUpdate d src) k =
      match pyGetLast src k with
      | some v => some v
      | none => pyGet d k := by
  induction src generalizing d with
  | nil => rfl
  | cons kv src ih =>
    show pyGet (pyUpdate (pyUpsert d kv.1 kv.2) src) k = _
    rw [ih]
    cases h : pyGetLast src k with
    | some v => simp [pyGetLast, h]
    | none =>
      by_cases hk : kv.1 = k <;> simp [pyGetLast, h, pyGet_pyUpsert, hk]

theorem escapeseq_ne_nil (c : Char) (h : c ≠ '\n') : escapeseq c ≠ [] := by
  unfold escapeseq
  split_ifs <;> simp_all

theorem flatMap_escapeseq_eq_nil (l : List Char) (hn : '\n' ∉ l)
    (h : l.flatMap escapeseq = []) : l = [] := by
  cases l with
  | nil => rfl
  | cons d rest2 =>
    exfalso
    rw [List.flatMap_cons] at h
    exact escapeseq_ne_nil d (fun e => hn (e ▸ List.mem_cons_self d rest2))
      (List.append_eq_nil.mp h).1

theorem escapeseq_head_not_special (l : List Char) (c : Char)
    (h : (l.flatMap escapeseq).head? = some c) : c ≠ ',' ∧ c ≠ ' ' ∧ c ≠ '=' := by
  induction l with
  | nil => simp at h
  | cons a rest ih =>
    rw [List.flatMap_cons] at h
    by_cases h1 : a = ','
    · subst h1
      simp [escapeseq] at h
      subst h
      refine ⟨by decide, by decide, by decide⟩
    · by_cases h2 : a = ' '
      · subst h2
        simp [escapeseq] at h
        subst h
        refine ⟨by decide, by decide, by decide⟩
      · by_cases h3 : a = '='
        · subst h3
          simp [escapeseq] at h
          subst h
          refine ⟨by decide, by decide, by decide⟩
        · by_cases h4 : a = '\n'
          · subst h4
            simp [escapeseq] at h
            exact ih h
          · simp [escapeseq, h1, h2, h3, h4] at h
            subst h
            exact ⟨h1, h2, h3⟩

theorem unescChars_cons_not_bs (c : Char) (l : List Char) (h : c ≠ '\\') :
    unescChars (c :: l) = c :: unescChars l := by
  cases l with
  | nil => rfl
  | cons d rest => simp [unescChars, h]

theorem unescChars_bs_special (d : Char) (l : List Char)
    (hd : d = ',' ∨ d = ' ' ∨ d = '=') :
    unescChars ('\\' :: d :: l) = d :: unescChars l := by
  simp [unescChars, hd]

theorem unescChars_bs_plain (d : Char) (l : List Char)
    (hd : ¬(d = ',' ∨ d = ' ' ∨ d = '=')) :
    unescChars ('\\' :: d :: l) = '\\' :: unescChars (d :: l) := by
  simp [unescChars, hd]

theorem unescChars_escape (l : List Char) (hn : '\n' ∉ l) :
    unescChars (l.flatMap escapeseq) = l := by
  induction l with
  | nil => simp [unescChars]
  | cons c rest ih =>
    have hrest : '\n' ∉ rest := fun h => hn (List.mem_cons_of_mem c h)
    have ihr := ih hrest
    have hc : c ≠ '\n' := fun h => hn (h ▸ List.mem_cons_self c rest)
    rw [List.flatMap_cons]
    by_cases h1 : c = ','
    · subst h1
      show unescChars ('\\' :: ',' :: rest.flatMap escapeseq) = _
      rw [unescChars_bs_special ',' _ (Or.inl rfl), ihr]
    · by_cases h2 : c = ' '
      · subst h2
        show unescChars ('\\' :: ' ' :: rest.flatMap escapeseq) = _
        rw [unescChars_bs_special ' ' _ (Or.inr (Or.inl rfl)), ihr]
      · by_cases h3 : c = '='
        · subst h3
          show unescChars ('\\' :: '=' :: rest.flatMap escapeseq) = _
          rw [unescChars_bs_special '=' _ (Or.inr (Or.inr rfl)), ihr]
        · by_cases h5 : c = '\\'
          · subst h5
            show unescChars ('\\' :: rest.flatMap escapeseq) = _
            cases hb : rest.flatMap escapeseq with
            | nil =>
              rw [flatMap_escapeseq_eq_nil rest hrest hb]
              decide
            | cons d tail =>
              have hd := escapeseq_head_not_special rest d (by rw [hb]; rfl)
              have hcond : ¬(d = ',' ∨ d = ' ' ∨ d = '=') := by
                rintro (h | h | h)
                · exact hd.1 h
                · exact hd.2.1 h
                · exact hd.2.2 h
              rw [unescChars_bs_plain d tail hcond, ← hb, ihr]
          · have hesc : escapeseq c = [c] := by
              simp [escapeseq, h1, h2, h3, hc]
            rw [hesc]
            show unescChars (c :: rest.flatMap escapeseq) = c :: rest
            rw [unescChars_cons_not_bs c _ h5, ihr]

/-! ## Claim theorems -/

/-- C10: for every Destination, a configured tag keyed "name" or "dest"
overrides the built-in probe-group-identity and address tags (the
configured mapping is applied by `update` over the built-ins), while the
probername tag, applied last in `Dest.tags`, overrides any configured tag
with that key. -/
theorem dest_tag_precedence (name dest pn : String) (cfg : List (String × String)) :
    pyGet ((Dest.make name dest cfg).tagsFor pn) "probername" = some pn
    ∧ pyGet ((Dest.make name dest cfg).tagsFor pn) "name"
        = some ((pyGetLast cfg "name").getD name)
    ∧ pyGet ((Dest.make name dest cfg).tagsFor pn) "dest"
        = some ((pyGetLast cfg "dest").getD dest) := by
  have htf : (Dest.make name dest cfg).tagsFor pn
      = pyUpsert (Dest.make name dest cfg).tagsAll "probername" pn := rfl
  refine ⟨?_, ?_, ?_⟩
  · rw [htf, pyGet_pyUpsert_self]
  · rw [htf, pyGet_pyUpsert_ne _ _ _ _ (by decide)]
    show pyGet (pyUpdate [("name", name), ("dest", dest)] cfg) "name" = _
    rw [pyGet_pyUpdate]
    cases h : pyGetLast cfg "name" with
    | some v => simp
    | none => simp [pyGet]
  · rw [htf, pyGet_pyUpsert_ne _ _ _ _ (by decide)]
    show pyGet (pyUpdate [("name", name), ("dest", dest)] cfg) "dest" = _
    rw [pyGet_pyUpdate]
    cases h : pyGetLast cfg "dest" with
    | some v => simp
    | none => simp [pyGet]

/-- C3: integer field values serialize with the trailing integer marker and
string values serialize quoted, as claimed, and float values serialize
unmarked — but a boolean also takes the `isinstance(value, int)` branch
(Python `bool` is a subclass of `int`), so a boolean is serialized WITH the
integer marker, e.g. `up=Truei`, contradicting the claim's unmarked-boolean
clause; the `elif isinstance(value, (bool, float))` branch is dead for
booleans. -/
theorem encode_field_markers :
    Point_encode_field "up" (.bool true) = "up=Truei"
    ∧ (∀ f b, Point_encode_field f (.bool b)
        = Point_encode f ++ "=" ++ Point_encode (pyStr (.bool b)) ++ "i")
    ∧ (∀ f n, Point_encode_field f (.int n)
        = Point_encode f ++ "=" ++ Point_encode (pyStr (.int n)) ++ "i")
    ∧ (∀ f d, Point_encode_field f (.float d)
        = Point_encode f ++ "=" ++ Point_encode (pyStr (.float d)))
    ∧ (∀ f s, Point_encode_field f (.str s)
        = Point_encode f ++ "=\"" ++ Point_encode s ++ "\"") :=
  ⟨by decide, fun f b => rfl, fun f n => rfl, fun f d => rfl, fun f s => rfl⟩

/-- C8 counterexample: the encoder drops newlines, so a value containing a
comma, a space, an equals sign and a newline does not round-trip. -/
theorem escape_roundtrip_newline_cex :
    (',' ∈ (", =\n" : String).data ∧ ' ' ∈ (", =\n" : String).data
      ∧ '=' ∈ (", =\n" : String).data)
    ∧ unescape (Point_encode ", =\n") ≠ ", =\n" := by decide

/-- C8 (amended): for every string containing a comma, a space and an
equals sign but no newline, escaping and then reversing the escape rules
reproduces the string exactly. -/
theorem escape_roundtrip (s : String) (h1 : ',' ∈ s.data) (h2 : ' ' ∈ s.data)
    (h3 : '=' ∈ s.data) (hn : '\n' ∉ s.data) :
    unescape (Point_encode s) = s := by
  cases s with
  | mk l => exact congrArg String.mk (unescChars_escape l hn)

theorem escape_roundtrip_witness :
    (',' ∈ ("a,b =c" : String).data ∧ ' ' ∈ ("a,b =c" : String).data
      ∧ '=' ∈ ("a,b =c" : String).data ∧ '\n' ∉ ("a,b =c" : String).data)
    ∧ unescape (Point_encode "a,b =c") = "a,b =c" :=
  ⟨by decide,
   escape_roundtrip "a,b =c" (by decide) (by decide) (by decide) (by decide)⟩

/-- C9 counterexample: the spawned command carries `--tos` (with value 0),
a flag that is not in the §4.1 set and is not a destination address, so the
command is not "exactly the §4.1 flags plus the addresses". -/
theorem fping_cmd_extra_tos_cex :
    "--tos" ∈ fping_cmd ⟨"p", [Dest.make "g" "h" []]⟩
    ∧ "--tos" ∉ spec41_flags
    ∧ "--tos" ∉ (ProberData.destsDict ⟨"p", [Dest.make "g" "h" []]⟩).map
        (fun kv => kv.2.dest) := by decide

/-- C9 (amended): `get_process` spawns fping with exactly the §4.1 flag set
plus `--tos 0`, followed by the worker's destination addresses (the values
of its address table) and nothing else. -/
theorem fping_cmd_flags (pr : ProberData) :
    fping_cmd pr = fping_base_cmd ++ pr.destsDict.map (fun kv => kv.2.dest)
    ∧ fping_base_cmd.Perm ("fping" :: "--tos" :: "0" :: spec41_flags) :=
  ⟨rfl, by decide⟩

/-- C7 counterexample: on a network/HTTP client error the POST raises and
`write` has no try/except, so the call does not return normally — the
exception propagates (it is absorbed only by the detached dispatch task). -/
theorem write_network_error_cex :
    (InfluxDBClient.write ⟨"fping", [], [], none⟩
        (.netError "Cannot connect to host")).returnsNormally = false := by
  decide

/-- C7 (amended): on a non-204 response the call logs exactly one failure
line carrying the response body, issues exactly one request (no retry), and
returns normally; on a 204 it returns normally with nothing logged. `write`
is a function of its call's arguments alone, so an earlier failed call
cannot affect a later call. -/
theorem write_bad_status_logs_and_returns (pt : Point) (st : Nat) (body : String)
    (h : st ≠ 204) :
    InfluxDBClient.write pt (.resp st body)
      = .returned ⟨1, ["influxdb write failed: " ++ body]⟩ st
    ∧ (InfluxDBClient.write pt (.resp st body)).returnsNormally = true
    ∧ (∀ pt2 body2, InfluxDBClient.write pt2 (.resp 204 body2)
        = .returned ⟨1, []⟩ 204) := by
  refine ⟨?_, ?_, fun pt2 body2 => by simp [InfluxDBClient.write]⟩
  · simp [InfluxDBClient.write, h]
  · simp [InfluxDBClient.write, h, WriteOutcome.returnsNormally]

theorem write_bad_status_logs_and_returns_witness :
    (500 : Nat) ≠ 204
    ∧ (InfluxDBClient.write ⟨"fping", [], [], none⟩ (.resp 500 "oops")
        = .returned ⟨1, ["influxdb write failed: " ++ "oops"]⟩ 500
      ∧ (InfluxDBClient.write ⟨"fping", [], [], none⟩ (.resp 500 "oops")).returnsNormally = true
      ∧ (∀ pt2 body2, InfluxDBClient.write pt2 (.resp 204 body2)
          = .returned ⟨1, []⟩ 204)) :=
  ⟨by decide, write_bad_status_logs_and_returns ⟨"fping", [], [], none⟩ 500 "oops" (by decide)⟩

/-- C6: a report line whose host is in the worker's address table yields the
`fping` point with integer fields sent=10, recv=8, loss=20 and float fields
min=1.00, avg=2.50, max=9.90 (`Dec` values denote exact decimals, so these
are the parsed latencies), tagged per the destination's configuration; a
line without the latency clause yields the same integer fields with
min=avg=max=0.0. -/
theorem readline_report_fields (nm pn : String) (tags : List (String × String)) :
    ProberData.readline ⟨pn, [Dest.make nm "host1" tags]⟩
        "host1 : xmt/rcv/%loss = 10/8/20%, min/avg/max = 1.00/2.50/9.90"
      = .emit ⟨"fping",
          [("sent", .int 10), ("recv", .int 8), ("loss", .int 20),
           ("min", .float ⟨1, 0⟩), ("avg", .float ⟨25, 1⟩), ("max", .float ⟨99, 1⟩)],
          (Dest.make nm "host1" tags).tagsFor pn, none⟩
    ∧ ProberData.readline ⟨pn, [Dest.make nm "host1" tags]⟩
        "host1 : xmt/rcv/%loss = 10/8/20%"
      = .emit ⟨"fping",
          [("sent", .int 10), ("recv", .int 8), ("loss", .int 20),
           ("min", .float ⟨0, 0⟩), ("avg", .float ⟨0, 0⟩), ("max", .float ⟨0, 0⟩)],
          (Dest.make nm "host1" tags).tagsFor pn, none⟩ :=
  ⟨rfl, rfl⟩

/-! ## C4: partitioning -/

theorem getD_set_self {α : Type} (l : List α) (i : Nat) (a d : α)
    (h : i < l.length) : (l.set i a).getD i d = a := by
  rw [List.getD_eq_getElem?_getD, List.getElem?_set_eq_of_lt a h]
  rfl

theorem getD_set_ne {α : Type} (l : List α) (i j : Nat) (a d : α)
    (h : j ≠ i) : (l.set i a).getD j d = l.getD j d := by
  rw [List.getD_eq_getElem?_getD, List.getElem?_set_ne (fun e => h e.symm),
    List.getD_eq_getElem?_getD]

theorem chunker_foldl_length {α : Type} (pool : Nat) (es : List (Nat × α))
    (acc : List (List α)) :
    (es.foldl (fun lists ie =>
      lists.set (ie.1 % pool) ((lists.getD (ie.1 % pool) []) ++ [ie.2])) acc).length
      = acc.length := by
  induction es generalizing acc with
  | nil => rfl
  | cons e es ih => rw [List.foldl_cons, ih, List.length_set]

theorem chunker_length {α : Type} (l : List α) (pool : Nat) :
    (chunker l pool).length = pool := by
  unfold chunker
  rw [chunker_foldl_length, List.length_replicate]

theorem chunker_foldl_getD {α : Type} (pool : Nat)
    (es : List (Nat × α)) (acc : List (List α)) (hacc : acc.length = pool)
    (i : Nat) (hi : i < pool) :
    (es.foldl (fun lists ie =>
        lists.set (ie.1 % pool) ((lists.getD (ie.1 % pool) []) ++ [ie.2])) acc).getD i []
      = acc.getD i [] ++ (es.filter (fun ie => ie.1 % pool = i)).map Prod.snd := by
  induction es generalizing acc with
  | nil => simp
  | cons e es ih =>
    rw [List.foldl_cons]
    have hlen2 : (acc.set (e.1 % pool) (acc.getD (e.1 % pool) [] ++ [e.2])).length
        = pool := by rw [List.length_set, hacc]
    rw [ih _ hlen2]
    by_cases he : e.1 % pool = i
    · rw [he, getD_set_self _ _ _ _ (by rw [hacc]; exact hi)]
      simp [he]
    · rw [getD_set_ne _ _ _ _ _ (fun e2 => he e2.symm)]
      simp [he]

theorem chunker_getD {α : Type} (l : List α) (pool i : Nat)
    (hi : i < pool) :
    (chunker l pool).getD i []
      = (l.enum.filter (fun ie => ie.1 % pool = i)).map Prod.snd := by
  unfold chunker
  rw [chunker_foldl_getD pool _ _ (List.length_replicate _ _) i hi]
  rw [List.getD_eq_getElem?_getD, List.getElem?_replicate]
  simp [hi]

/-- C4 counterexample: with one configured destination and two workers the
second `chunker` bucket is empty, yet `get_fping_probers` still creates a
Prober for it (the comprehension has no emptiness filter), so a worker IS
created for an empty bucket. -/
theorem probers_empty_bucket_cex :
    (get_fping_probers confDemo 2).length = 2
    ∧ (get_fping_probers confDemo 2).getD 1 ⟨"", []⟩ = ⟨"p", []⟩ := by decide

/-- C4 (amended): build flattens the probe groups into the ordered
destination list, partitions it by `index mod W`, and instantiates exactly
one Prober per bucket — including empty buckets, so exactly W Probers in
total; bucket `i` holds precisely the destinations whose index is `i mod W`,
in order. -/
theorem probers_one_per_bucket (conf : Conf) (W : Nat) (_hW : 1 ≤ W) :
    (get_fping_probers conf W).length = W
    ∧ ∀ i, i < W →
        ((get_fping_probers conf W).getD i ⟨conf.prober_name, []⟩).probername
            = conf.prober_name
        ∧ ((get_fping_probers conf W).getD i ⟨conf.prober_name, []⟩).destsList
            = ((apingDests conf).enum.filter (fun ie => ie.1 % W = i)).map Prod.snd := by
  constructor
  · rw [get_fping_probers, List.length_map, chunker_length]
  · intro i hi
    have hlt : i < (chunker (apingDests conf) W).length := by
      rw [chunker_length]; exact hi
    have hmap : (get_fping_probers conf W).getD i ⟨conf.prober_name, []⟩
        = ⟨conf.prober_name, (chunker (apingDests conf) W).getD i []⟩ := by
      rw [get_fping_probers, List.getD_eq_getElem?_getD, List.getElem?_map,
        (List.getElem?_eq_getElem hlt)]
      simp [List.getD_eq_getElem?_getD, List.getElem?_eq_getElem hlt]
    rw [hmap, chunker_getD _ _ _ hi]
    exact ⟨rfl, rfl⟩

theorem probers_one_per_bucket_witness :
    1 ≤ 2
    ∧ ((get_fping_probers confDemo 2).length = 2
      ∧ ∀ i, i < 2 →
          ((get_fping_probers confDemo 2).getD i ⟨confDemo.prober_name, []⟩).probername
              = confDemo.prober_name
          ∧ ((get_fping_probers confDemo 2).getD i ⟨confDemo.prober_name, []⟩).destsList
              = ((apingDests confDemo).enum.filter (fun ie => ie.1 % 2 = i)).map Prod.snd) :=
  ⟨by decide, probers_one_per_bucket confDemo 2 (by decide)⟩

/-! ## System lemmas -/

theorem sysRun_cons (s : Sys) (st : SStep) (L : List SStep) :
    sysRun s (st :: L)
      = ((sysRun (sysStep s st).1 L).1,
         (sysStep s st).2 ++ (sysRun (sysStep s st).1 L).2) := rfl

theorem rebuilds_append (t1 t2 : List Act) :
    rebuilds (t1 ++ t2) = rebuilds t1 ++ rebuilds t2 := List.filter_append _ _

theorem length_listModify {α : Type} (l : List α) (i : Nat) (f : α → α) :
    (listModify l i f).length = l.length := by
  unfold listModify
  cases h : l[i]? <;> simp

theorem length_foldl_listModify {α : Type} (idxs : List Nat) (l : List α)
    (f : α → α) :
    (idxs.foldl (fun acc i => listModify acc i f) l).length = l.length := by
  induction idxs generalizing l with
  | nil => rfl
  | cons i idxs ih => rw [List.foldl_cons, ih, length_listModify]

theorem mem_foldl_listModify {α : Type} (P : α → Prop) (f : α → α)
    (hf : ∀ a, P a → P (f a)) (idxs : List Nat) (l : List α)
    (hl : ∀ a ∈ l, P a) :
    ∀ a ∈ idxs.foldl (fun acc i => listModify acc i f) l, P a := by
  induction idxs generalizing l with
  | nil => exact hl
  | cons i idxs ih =>
    refine ih _ (fun a ha => ?_)
    have ha2 : a ∈ listModify l i f := ha
    rw [listModify] at ha2
    cases h : l[i]? with
    | none => rw [h] at ha2; exact hl a ha2
    | some b =>
      rw [h] at ha2
      rcases List.mem_or_eq_of_mem_set ha2 with h2 | h2
      · exact hl a h2
      · rw [h2]; exact hf b (hl b (List.getElem?_mem h))

theorem monitorStep_noop (s : Sys) (h : s.eventSet = false) :
    monitorStep s = (s, []) := by
  unfold monitorStep
  rw [h]
  rfl

theorem monitorStep_acts (s : Sys) (h : s.eventSet = true) :
    (monitorStep s).2
      = s.current.map Act.stopSig ++ s.current.map Act.cancelSig
        ++ Act.rebuilt s.fileConf
          :: (List.range (get_fping_probers s.fileConf s.workerCount).length).map
              (fun i => Act.created (s.workers.length + i)) := by
  unfold monitorStep
  rw [h]
  simp [cancelAll, stopAll, length_foldl_listModify]

theorem monitorStep_eventSet (s : Sys) (h : s.eventSet = true) :
    (monitorStep s).1.eventSet = false := by
  unfold monitorStep
  rw [h]
  rfl

theorem rebuilds_map_created (l : List Nat) (f : Nat → Nat) :
    rebuilds (l.map (fun i => Act.created (f i))) = [] := by
  simp [rebuilds]

theorem rebuilds_map_stopSig (l : List Nat) :
    rebuilds (l.map Act.stopSig) = [] := by
  simp [rebuilds]

theorem rebuilds_map_cancelSig (l : List Nat) :
    rebuilds (l.map Act.cancelSig) = [] := by
  simp [rebuilds]

theorem monitorStep_rebuilds (s : Sys) (h : s.eventSet = true) :
    rebuilds (monitorStep s).2 = [Act.rebuilt s.fileConf] := by
  rw [monitorStep_acts s h, rebuilds_append, rebuilds_append,
    rebuilds_map_stopSig, rebuilds_map_cancelSig]
  show rebuilds (Act.rebuilt s.fileConf :: _) = _
  rw [show (Act.rebuilt s.fileConf
      :: (List.range (get_fping_probers s.fileConf s.workerCount).length).map
          (fun i => Act.created (s.workers.length + i)))
    = [Act.rebuilt s.fileConf]
      ++ (List.range (get_fping_probers s.fileConf s.workerCount).length).map
          (fun i => Act.created (s.workers.length + i)) from rfl]
  rw [rebuilds_append, rebuilds_map_created]
  rfl

theorem wstep_parts (s : Sys) (wi : Nat) :
    (wstep s wi).1.eventSet = s.eventSet ∧ rebuilds (wstep s wi).2 = [] := by
  unfold wstep
  split
  · exact ⟨rfl, rfl⟩
  · split
    all_goals try exact ⟨rfl, rfl⟩
    all_goals split_ifs <;> exact ⟨rfl, by simp [rebuilds]⟩

theorem cbstep_parts (s : Sys) (wi : Nat) :
    (cbstep s wi).1.eventSet = s.eventSet ∧ rebuilds (cbstep s wi).2 = [] := by
  unfold cbstep
  split
  · exact ⟨rfl, rfl⟩
  · split
    · exact ⟨rfl, rfl⟩
    · split_ifs with h1
      · split <;> exact ⟨rfl, by simp [rebuilds]⟩
      · exact ⟨rfl, rfl⟩

theorem sysStep_preserve (s : Sys) (st : SStep) (hs : s.eventSet = false)
    (hst : st ≠ SStep.sighup) :
    (sysStep s st).1.eventSet = false ∧ rebuilds (sysStep s st).2 = [] := by
  cases st with
  | worker wi => exact ⟨(wstep_parts s wi).1.trans hs, (wstep_parts s wi).2⟩
  | cb wi => exact ⟨(cbstep_parts s wi).1.trans hs, (cbstep_parts s wi).2⟩
  | procExit p =>
    have he : sysStep s (.procExit p)
        = (match s.procs[p]? with
          | some ProcSt.running => ({s with procs := s.procs.set p .exited}, [Act.exitp p])
          | some ProcSt.signalled => ({s with procs := s.procs.set p .exited}, [Act.exitp p])
          | _ => (s, [])) := rfl
    rw [he]
    split <;> exact ⟨hs, rfl⟩
  | lineArrive wi => exact ⟨hs, rfl⟩
  | stopReq wi => exact ⟨hs, rfl⟩
  | sighup => exact absurd rfl hst
  | configSet c => exact ⟨hs, rfl⟩
  | monitor => rw [show sysStep s .monitor = monitorStep s from rfl, monitorStep_noop s hs]; exact ⟨hs, rfl⟩

theorem no_rebuild_without_sighup (s : Sys) (L : List SStep)
    (hs : s.eventSet = false) (hL : SStep.sighup ∉ L) :
    rebuilds (sysRun s L).2 = [] := by
  induction L generalizing s with
  | nil => rfl
  | cons st L ih =>
    have hne : st ≠ SStep.sighup := fun e => hL (e ▸ List.mem_cons_self st L)
    have hp := sysStep_preserve s st hs hne
    rw [sysRun_cons]
    show rebuilds ((sysStep s st).2 ++ _) = []
    rw [rebuilds_append, hp.2, List.nil_append]
    exact ih _ hp.1 (fun hm => hL (List.mem_cons_of_mem st hm))

/-- C5: two SIGHUP deliveries before the reload body runs coalesce: the
reload event is a single flag, so the following turn of `monitor_tasks`
performs exactly one rebuild, and it re-reads the configuration file as it
stands then — the content current after the last trigger (c2); the next
monitor turn (and any further steps without a new SIGHUP) rebuild nothing. -/
theorem reload_coalesce_single_rebuild (s : Sys) (c1 c2 : Conf) (post : List SStep)
    (_hs : s.eventSet = false) (hpost : SStep.sighup ∉ post) :
    rebuilds (sysRun s
      ([.configSet c1, .sighup, .configSet c2, .sighup, .monitor, .monitor] ++ post)).2
      = [Act.rebuilt c2] := by
  rw [show ([.configSet c1, .sighup, .configSet c2, .sighup, .monitor, .monitor] ++ post
      : List SStep)
    = .configSet c1 :: .sighup :: .configSet c2 :: .sighup :: .monitor :: .monitor :: post
    from rfl]
  rw [sysRun_cons]
  rw [show sysStep s (.configSet c1) = ({s with fileConf := c1}, []) from rfl]
  rw [sysRun_cons]
  rw [show sysStep {s with fileConf := c1} .sighup
      = ({s with fileConf := c1, eventSet := true}, []) from rfl]
  rw [sysRun_cons]
  rw [show sysStep {s with fileConf := c1, eventSet := true} (.configSet c2)
      = ({s with fileConf := c2, eventSet := true}, []) from rfl]
  rw [sysRun_cons]
  rw [show sysStep {s with fileConf := c2, eventSet := true} .sighup
      = ({s with fileConf := c2, eventSet := true}, []) from rfl]
  rw [sysRun_cons]
  rw [show sysStep {s with fileConf := c2, eventSet := true} .monitor
      = monitorStep {s with fileConf := c2, eventSet := true} from rfl]
  rw [sysRun_cons]
  rw [show sysStep (monitorStep {s with fileConf := c2, eventSet := true}).1 .monitor
      = monitorStep (monitorStep {s with fileConf := c2, eventSet := true}).1 from rfl]
  have hm1e : (monitorStep {s with fileConf := c2, eventSet := true}).1.eventSet = false :=
    monitorStep_eventSet _ rfl
  rw [monitorStep_noop _ hm1e]
  simp only [List.nil_append, Prod.fst, Prod.snd]
  rw [rebuilds_append]
  rw [show rebuilds (monitorStep {s with fileConf := c2, eventSet := true}).2
      = [Act.rebuilt c2] from monitorStep_rebuilds _ rfl]
  rw [no_rebuild_without_sighup _ post hm1e hpost]
  rfl

/-! ## C2: the stop callback can only ever terminate the process bound at
`run()` start -/

theorem cbSafe_set_worker (t : Nat) (s : Sys) (wi : Nat) (w2 : WorkerSt)
    (procs2 : List ProcSt) (h : cbSafe t s)
    (hw2 : w2.cbRan = true ∨ w2.cbProc ≠ some t)
    (hlen : s.procs.length ≤ procs2.length) :
    cbSafe t {s with workers := s.workers.set wi w2, procs := procs2} := by
  refine ⟨Nat.lt_of_lt_of_le h.1 hlen, fun w hw => ?_⟩
  rcases List.mem_or_eq_of_mem_set hw with h2 | h2
  · exact h.2 w h2
  · rw [h2]; exact hw2

theorem cbSafe_wstep (t : Nat) (s : Sys) (wi : Nat) (h : cbSafe t s) :
    cbSafe t (wstep s wi).1 ∧ Act.termProc t ∉ (wstep s wi).2 := by
  unfold wstep
  split
  · exact ⟨h, by simp⟩
  next w hw =>
    have hw2 := h.2 w (List.getElem?_mem hw)
    split
    · exact ⟨h, by simp⟩
    · exact ⟨h, by simp⟩
    · -- toSpawn
      by_cases hc : w.cancelReq = true
      · rw [if_pos hc]
        exact ⟨cbSafe_set_worker _ _ _ _ _ h hw2 (Nat.le_refl _), by simp⟩
      · rw [if_neg hc]
        refine ⟨cbSafe_set_worker _ _ _ _ _ h (Or.inr fun e => ?_) (by simp), by simp⟩
        exact Ne.symm (Nat.ne_of_lt h.1) (Option.some.inj e)
    · -- toRespawn
      by_cases hc : w.cancelReq = true
      · rw [if_pos hc]
        exact ⟨cbSafe_set_worker _ _ _ _ _ h hw2 (Nat.le_refl _), by simp⟩
      · rw [if_neg hc]
        exact ⟨cbSafe_set_worker _ _ _ _ _ h hw2 (by simp), by simp⟩
    · -- waiting
      by_cases hc : w.cancelReq = true
      · rw [if_pos hc]
        exact ⟨cbSafe_set_worker _ _ _ _ _ h hw2 (Nat.le_refl _), by simp⟩
      · rw [if_neg hc]
        by_cases hr : (w.lineReady || w.stopSet || isExited s w.curProc) = true
        · rw [if_pos hr]
          refine ⟨cbSafe_set_worker _ _ _ _ _ h hw2 (Nat.le_refl _), ?_⟩
          by_cases hl : w.lineReady = true <;> simp [hl]
        · rw [if_neg hr]
          exact ⟨h, by simp⟩
    · -- finalWait
      by_cases hc : w.cancelReq = true
      · rw [if_pos hc]
        exact ⟨cbSafe_set_worker _ _ _ _ _ h hw2 (Nat.le_refl _), by simp⟩
      · rw [if_neg hc]
        by_cases hr : isExited s w.curProc = true
        · rw [if_pos hr]
          exact ⟨cbSafe_set_worker _ _ _ _ _ h hw2 (Nat.le_refl _), by simp⟩
        · rw [if_neg hr]
          exact ⟨h, by simp⟩

theorem cbSafe_cbstep (t : Nat) (s : Sys) (wi : Nat) (h : cbSafe t s) :
    cbSafe t (cbstep s wi).1 ∧ Act.termProc t ∉ (cbstep s wi).2 := by
  unfold cbstep
  split
  · exact ⟨h, by simp⟩
  next w hw =>
    split
    · exact ⟨h, by simp⟩
    next p hp =>
      split_ifs with hsr
      · have hne : p ≠ t := by
          rcases h.2 w (List.getElem?_mem hw) with hr | hne2
          · exfalso
            rw [hr] at hsr
            simp at hsr
          · intro e
            exact hne2 (by rw [hp, e])
        have htne : t ≠ p := Ne.symm hne
        split
        · exact ⟨cbSafe_set_worker _ _ _ _ _ h (Or.inl rfl)
            (Nat.le_of_eq (List.length_set _ _ _).symm), by simp [htne]⟩
        · exact ⟨cbSafe_set_worker _ _ _ _ _ h (Or.inl rfl)
            (Nat.le_of_eq (List.length_set _ _ _).symm), by simp [htne]⟩
        · exact ⟨cbSafe_set_worker _ _ _ _ _ h (Or.inl rfl) (Nat.le_refl _), by simp⟩
      · exact ⟨h, by simp⟩

theorem mem_listModify {α : Type} (P : α → Prop) (f : α → α)
    (hf : ∀ a, P a → P (f a)) (i : Nat) (l : List α) (hl : ∀ a ∈ l, P a) :
    ∀ a ∈ listModify l i f, P a :=
  mem_foldl_listModify P f hf [i] l hl

theorem cbSafe_monitorState (t : Nat) (s : Sys) (h : cbSafe t s) :
    cbSafe t (monitorStep s).1 := by
  by_cases he : s.eventSet = true
  · unfold monitorStep
    rw [if_pos he]
    refine ⟨h.1, fun w hw => ?_⟩
    rcases List.mem_append.mp hw with hw1 | hw1
    · have hstop : ∀ w2 ∈ (stopAll {s with eventSet := false}).workers,
          w2.cbRan = true ∨ w2.cbProc ≠ some t := by
        unfold stopAll
        exact mem_foldl_listModify (fun (w2 : WorkerSt) => w2.cbRan = true ∨ w2.cbProc ≠ some t)
          (fun (w2 : WorkerSt) => {w2 with stopSet := true}) (fun a ha => ha) _ _
          (fun a ha => h.2 a ha)
      have hcan : ∀ w2 ∈ (cancelAll (stopAll {s with eventSet := false})).workers,
          w2.cbRan = true ∨ w2.cbProc ≠ some t := by
        unfold cancelAll
        exact mem_foldl_listModify (fun (w2 : WorkerSt) => w2.cbRan = true ∨ w2.cbProc ≠ some t)
          (fun (w2 : WorkerSt) => {w2 with cancelReq := true}) (fun a ha => ha) _ _ hstop
      exact hcan w hw1
    · rcases List.mem_map.mp hw1 with ⟨pr, hpr, he2⟩
      right
      rw [← he2]
      simp [mkWorker]
  · rw [monitorStep_noop s (Bool.eq_false_iff.mpr he)]
    exact h

theorem monitorStep_no_termProc (t : Nat) (s : Sys) :
    Act.termProc t ∉ (monitorStep s).2 := by
  by_cases he : s.eventSet = true
  · rw [monitorStep_acts s he]
    simp
  · rw [monitorStep_noop s (Bool.eq_false_iff.mpr he)]
    simp

theorem cbSafe_sysStep (t : Nat) (s : Sys) (st : SStep) (h : cbSafe t s) :
    cbSafe t (sysStep s st).1 ∧ Act.termProc t ∉ (sysStep s st).2 := by
  cases st with
  | worker wi => exact cbSafe_wstep t s wi h
  | cb wi => exact cbSafe_cbstep t s wi h
  | procExit p =>
    rw [show sysStep s (.procExit p)
        = (match s.procs[p]? with
          | some ProcSt.running => ({s with procs := s.procs.set p .exited}, [Act.exitp p])
          | some ProcSt.signalled => ({s with procs := s.procs.set p .exited}, [Act.exitp p])
          | _ => (s, [])) from rfl]
    split
    · exact ⟨⟨by simpa using h.1, h.2⟩, by simp⟩
    · exact ⟨⟨by simpa using h.1, h.2⟩, by simp⟩
    · exact ⟨h, by simp⟩
  | lineArrive wi =>
    exact ⟨⟨h.1, mem_listModify (fun (w2 : WorkerSt) => w2.cbRan = true ∨ w2.cbProc ≠ some t)
      (fun (w2 : WorkerSt) => {w2 with lineReady := true}) (fun a ha => ha) wi s.workers h.2⟩,
      List.not_mem_nil _⟩
  | stopReq wi =>
    exact ⟨⟨h.1, mem_listModify (fun (w2 : WorkerSt) => w2.cbRan = true ∨ w2.cbProc ≠ some t)
      (fun (w2 : WorkerSt) => {w2 with stopSet := true}) (fun a ha => ha) wi s.workers h.2⟩,
      by simp [sysStep]⟩
  | sighup => exact ⟨⟨h.1, h.2⟩, List.not_mem_nil _⟩
  | configSet c => exact ⟨⟨h.1, h.2⟩, List.not_mem_nil _⟩
  | monitor => exact ⟨cbSafe_monitorState t s h, monitorStep_no_termProc t s⟩

theorem cbSafe_no_termProc (t : Nat) (s : Sys) (h : cbSafe t s) (L : List SStep) :
    Act.termProc t ∉ (sysRun s L).2 := by
  induction L generalizing s with
  | nil => simp [sysRun]
  | cons st L ih =>
    rw [sysRun_cons]
    intro hmem
    rcases List.mem_append.mp hmem with hm | hm
    · exact (cbSafe_sysStep t s st h).2 hm
    · exact ih _ (cbSafe_sysStep t s st h).1 hm

/-- C2 (code evaluated at the failing scenario): after one respawn, a stop
request leaves the worker at `await process.wait()` on the live respawned
process 1 with the stop flag set — but the `stopped` callback, bound by
`functools.partial` to the initial process 0, found process 0 already
exited and terminated nothing. No continuation of the system ever emits a
terminate for process 1 (`cbSafe`), so the worker never terminates its
currently live process, and it has not returned. -/
theorem stop_after_respawn_misses_live_process :
    (((sysRun (initSys confDemo 1) stopAfterRespawnScript).1.workers.getD 0 wDefault).phase
        = WPhase.finalWait
      ∧ ((sysRun (initSys confDemo 1) stopAfterRespawnScript).1.workers.getD 0 wDefault).stopSet
        = true
      ∧ ((sysRun (initSys confDemo 1) stopAfterRespawnScript).1.workers.getD 0 wDefault).curProc
        = some 1
      ∧ ((sysRun (initSys confDemo 1) stopAfterRespawnScript).1.workers.getD 0 wDefault).cbProc
        = some 0
      ∧ (sysRun (initSys confDemo 1) stopAfterRespawnScript).1.procs = [.exited, .running]
      ∧ Act.termProc 1 ∉ (sysRun (initSys confDemo 1) stopAfterRespawnScript).2
      ∧ Act.ret 0 ∉ (sysRun (initSys confDemo 1) stopAfterRespawnScript).2)
    ∧ ∀ more : List SStep,
        Act.termProc 1 ∉
          (sysRun (sysRun (initSys confDemo 1) stopAfterRespawnScript).1 more).2 :=
  ⟨by decide, fun more => cbSafe_no_termProc 1 _ (by decide) more⟩

/-- C1 counterexample: in the reload schedule of `reloadOverlapScript`, the
new-epoch worker 1 starts probing (spawns process 1) for the same
destination as old-epoch worker 0 while process 0 is still alive — process
0 has neither exited nor been terminated, and worker 0 never returned (its
task died by cancellation without cleanup), so no epoch ordering barrier
holds. -/
theorem reload_overlap_cex :
    Act.spawn 1 1 ∈ (sysRun (initSys confDemo 1) reloadOverlapScript).2
    ∧ ((sysRun (initSys confDemo 1) reloadOverlapScript).1.workers.getD 1 wDefault).epoch = 1
    ∧ ((sysRun (initSys confDemo 1) reloadOverlapScript).1.workers.getD 0 wDefault).epoch = 0
    ∧ ((sysRun (initSys confDemo 1) reloadOverlapScript).1.workers.getD 1 wDefault).dests
      = ((sysRun (initSys confDemo 1) reloadOverlapScript).1.workers.getD 0 wDefault).dests
    ∧ (sysRun (initSys confDemo 1) reloadOverlapScript).1.procs.getD 0 .exited = .running
    ∧ Act.exitp 0 ∉ (sysRun (initSys confDemo 1) reloadOverlapScript).2
    ∧ Act.termProc 0 ∉ (sysRun (initSys confDemo 1) reloadOverlapScript).2
    ∧ Act.ret 0 ∉ (sysRun (initSys confDemo 1) reloadOverlapScript).2 := by decide

/-- C1 (amended): every reload turn emits the stop signals and the task
cancellations of all old-epoch workers strictly before any new-epoch worker
is created, but it terminates no process, observes no process exit and
awaits no old worker's return — the reload sequencing stops at signalling,
there is no termination barrier before the new epoch starts. -/
theorem reload_stop_signals_precede_creates (s : Sys) (h : s.eventSet = true) :
    (monitorStep s).2
      = s.current.map Act.stopSig ++ s.current.map Act.cancelSig
        ++ Act.rebuilt s.fileConf
          :: (List.range (get_fping_probers s.fileConf s.workerCount).length).map
              (fun i => Act.created (s.workers.length + i))
    ∧ (∀ p, Act.termProc p ∉ (monitorStep s).2)
    ∧ (∀ p, Act.exitp p ∉ (monitorStep s).2)
    ∧ (∀ w, Act.ret w ∉ (monitorStep s).2) := by
  refine ⟨monitorStep_acts s h, ?_, ?_, ?_⟩ <;>
    · intro x
      rw [monitorStep_acts s h]
      simp

theorem reload_stop_signals_precede_creates_witness :
    sysDemoReload.eventSet = true
    ∧ ((monitorStep sysDemoReload).2
        = sysDemoReload.current.map Act.stopSig
          ++ sysDemoReload.current.map Act.cancelSig
          ++ Act.rebuilt sysDemoReload.fileConf
            :: (List.range
                (get_fping_probers sysDemoReload.fileConf sysDemoReload.workerCount).length).map
                (fun i => Act.created (sysDemoReload.workers.length + i))
      ∧ (∀ p, Act.termProc p ∉ (monitorStep sysDemoReload).2)
      ∧ (∀ p, Act.exitp p ∉ (monitorStep sysDemoReload).2)
      ∧ (∀ w, Act.ret w ∉ (monitorStep sysDemoReload).2)) :=
  ⟨rfl, reload_stop_signals_precede_creates sysDemoReload rfl⟩

theorem reload_coalesce_single_rebuild_witness :
    (initSys confDemo 1).eventSet = false
    ∧ SStep.sighup ∉ ([] : List SStep)
    ∧ rebuilds (sysRun (initSys confDemo 1)
        ([.configSet confDemo, .sighup, .configSet confDemo2, .sighup,
          .monitor, .monitor] ++ [])).2
      = [Act.rebuilt confDemo2] :=
  ⟨rfl, List.not_mem_nil _,
   reload_coalesce_single_rebuild (initSys confDemo 1) confDemo confDemo2 []
     rfl (List.not_mem_nil _)⟩

